import Mathlib

/-!
# Verification of the web-scraper engine (`src/app.py`)

Shallow embedding of the crawler in `app.py`: URL utilities (`urllib.parse`
as used by the code), the page extractor `extract_page_data`, and the
breadth-first crawl loop of `scrape_website`.  Network fetches and the
wall clock are modelled as explicit oracle parameters; Python's `set` of
visited URLs is modelled as a list used only through membership.
-/

namespace Scraper

/-! ## Character/list helpers mirroring Python `str` operations -/

/-- Python whitespace class `\s` (ASCII portion): space, tab, newline,
carriage return, vertical tab, form feed. -/
def isPySpace (c : Char) : Bool :=
  c = ' ' || c = '\t' || c = '\n' || c = '\r' || c = '\x0b' || c = '\x0c'

/-- Split a char list at the first occurrence of `sep`; `none` when absent. -/
def splitFirst (sep : Char) : List Char → Option (List Char × List Char)
  | [] => none
  | c :: cs =>
    if c = sep then some ([], cs)
    else match splitFirst sep cs with
      | none => none
      | some (a, b) => some (c :: a, b)

/-- Python `str.split(sep)` for a one-character separator:
`"".split("/") = [""]`, `"/a".split("/") = ["", "a"]`. -/
def splitOnChar (sep : Char) : List Char → List (List Char)
  | [] => [[]]
  | c :: cs =>
    let r := splitOnChar sep cs
    if c = sep then [] :: r
    else match r with
      | [] => [[c]]
      | a :: rest => (c :: a) :: rest

/-- Collapse every maximal run of whitespace into a single space
(the effect of `re.sub(r'\s+', ' ', text)`). -/
def collapseWs : List Char → List Char
  | [] => []
  | [c] => if isPySpace c then [' '] else [c]
  | c :: c' :: cs =>
    if isPySpace c then
      if isPySpace c' then collapseWs (c' :: cs)
      else ' ' :: collapseWs (c' :: cs)
    else c :: collapseWs (c' :: cs)

/-- Python `str.strip()` restricted to whitespace characters. -/
def stripWs (l : List Char) : List Char :=
  ((l.dropWhile isPySpace).reverse.dropWhile isPySpace).reverse

/-- `clean_text` (app.py lines 35-39).  The argument is `Option String`
because Python callers may pass `None` (e.g. `soup.title.string`);
`if not text` catches both `None` and the empty string. -/
def clean_text : Option String → String
  | none => ""
  | some s => if s = "" then "" else ⟨stripWs (collapseWs s.data)⟩

/-! ## `urllib.parse`: urlsplit / urlunsplit / urljoin

Faithful to CPython's `urllib.parse` for the code paths `app.py` uses
(`urlparse`, `urljoin`, `scheme`/`netloc` access).  The `params` component
is folded into the path: for the schemes involved, `urlunparse` re-joins
`path;params` with `;`, so splitting it off and re-attaching it is the
identity on every composition the program performs. -/

/-- Characters allowed in a URL scheme after the leading letter. -/
def isSchemeChar (c : Char) : Bool :=
  c.isAlpha || c.isDigit || c = '+' || c = '-' || c = '.'

/-- Result of `urlsplit`: scheme, netloc, path, query, fragment. -/
structure UrlParts where
  scheme : String
  netloc : String
  path : String
  query : String
  fragment : String
deriving DecidableEq, Repr

/-- WHATWG sanitisation performed by `urlsplit`: strip leading/trailing
C0-control-or-space characters and remove every tab, CR and LF. -/
def sanitizeUrl (l : List Char) : List Char :=
  let stripped := ((l.dropWhile (fun c => c ≤ ' ')).reverse.dropWhile (fun c => c ≤ ' ')).reverse
  stripped.filter (fun c => ¬ (c = '\t' || c = '\r' || c = '\n'))

/-- `urllib.parse.urlsplit(url, scheme=default)`. -/
def urlsplit (url : String) (default : String) : UrlParts :=
  let l := sanitizeUrl url.data
  let (scheme, rest) :=
    match splitFirst ':' l with
    | some (pre, post) =>
      if pre ≠ [] ∧ (pre.headD (Char.ofNat 97)).isAlpha then
        if pre.all isSchemeChar then (String.mk (pre.map Char.toLower), post)
        else (default, l)
      else (default, l)
    | none => (default, l)
  let (netloc, rest') :=
    match rest with
    | '/' :: '/' :: r =>
      (String.mk (r.takeWhile (fun c => ¬ (c = '/' || c = '?' || c = '#'))),
       r.dropWhile (fun c => ¬ (c = '/' || c = '?' || c = '#')))
    | _ => ("", rest)
  let (beforeFrag, fragment) :=
    match splitFirst '#' rest' with
    | some (a, b) => (a, String.mk b)
    | none => (rest', "")
  let (path, query) :=
    match splitFirst '?' beforeFrag with
    | some (a, b) => (String.mk a, String.mk b)
    | none => (String.mk beforeFrag, "")
  ⟨scheme, netloc, path, query, fragment⟩

/-- `urllib.parse.urlunsplit` (with the `params` component folded into
the path, see above). -/
def urlunsplit (p : UrlParts) : String :=
  let url₁ :=
    if p.netloc ≠ "" ∨ (p.path ≠ "" ∧ p.path.data.take 2 = ['/', '/']) then
      "//" ++ p.netloc ++
        (if p.path ≠ "" ∧ p.path.data.take 1 ≠ ['/'] then "/" ++ p.path else p.path)
    else p.path
  let url₂ := if p.scheme ≠ "" then p.scheme ++ ":" ++ url₁ else url₁
  let url₃ := if p.query ≠ "" then url₂ ++ "?" ++ p.query else url₂
  if p.fragment ≠ "" then url₃ ++ "#" ++ p.fragment else url₃

/-- `urllib.parse.uses_relative`. -/
def uses_relative : List String :=
  ["", "ftp", "http", "gopher", "nntp", "imap", "wais", "file", "https",
   "shttp", "mms", "prospero", "rtsp", "rtspu", "sftp", "svn", "svn+ssh",
   "ws", "wss"]

/-- `urllib.parse.uses_netloc`. -/
def uses_netloc : List String :=
  ["", "ftp", "http", "gopher", "nntp", "telnet", "imap", "wais", "file",
   "mms", "https", "shttp", "snews", "prospero", "rtsp", "rtspu", "rsync",
   "svn", "svn+ssh", "sftp", "nfs", "git", "git+ssh", "ws", "wss",
   "itms-services"]

/-- `segments[1:-1] = filter(None, segments[1:-1])`, applied to the tail:
drop empty segments except the final one. -/
def filterMid : List (List Char) → List (List Char)
  | [] => []
  | [a] => [a]
  | a :: rest => if a = [] then filterMid rest else a :: filterMid rest

/-- The resolution loop of `urljoin`: `..` pops, `.` is dropped,
anything else is pushed. -/
def resolveSegs (acc : List (List Char)) : List (List Char) → List (List Char)
  | [] => acc
  | s :: rest =>
    if s = ['.', '.'] then resolveSegs acc.dropLast rest
    else if s = ['.'] then resolveSegs acc rest
    else resolveSegs (acc ++ [s]) rest

/-- `urllib.parse.urljoin(base, url)`. -/
def urljoin (base url : String) : String :=
  if base = "" then url
  else if url = "" then base
  else
    let b := urlsplit base ""
    let u := urlsplit url b.scheme
    if ¬ (u.scheme = b.scheme ∧ uses_relative.contains u.scheme) then url
    else if uses_netloc.contains u.scheme ∧ u.netloc ≠ "" then
      urlunsplit ⟨u.scheme, u.netloc, u.path, u.query, u.fragment⟩
    else
      let netloc := if uses_netloc.contains u.scheme then b.netloc else u.netloc
      if u.path = "" then
        urlunsplit ⟨u.scheme, netloc, b.path,
          (if u.query = "" then b.query else u.query), u.fragment⟩
      else
        let base_parts₀ := splitOnChar '/' b.path.data
        let base_parts :=
          if base_parts₀.getLastD [] ≠ [] then base_parts₀.dropLast else base_parts₀
        let segments :=
          if u.path.data.take 1 = ['/'] then splitOnChar '/' u.path.data
          else match base_parts ++ splitOnChar '/' u.path.data with
            | [] => []
            | a :: rest => a :: filterMid rest
        let resolved₀ := resolveSegs [] segments
        let resolved :=
          if segments.getLastD [] = ['.'] ∨ segments.getLastD [] = ['.', '.'] then
            resolved₀ ++ [[]]
          else resolved₀
        let joined := String.mk (List.intercalate ['/'] resolved)
        urlunsplit ⟨u.scheme, netloc, (if joined = "" then "/" else joined),
          u.query, u.fragment⟩

/-- `get_base_url` (app.py lines 31-33): `f"{scheme}://{netloc}"`. -/
def get_base_url (url : String) : String :=
  let parsed := urlsplit url ""
  parsed.scheme ++ "://" ++ parsed.netloc

/-! ## Parsed HTML: the BeautifulSoup tree

`extract_page_data` receives an already-parsed `soup`; parsing is
deterministic, so identical raw HTML gives an identical tree.  A node is
either a text node (`NavigableString`) or an element with a tag name, an
attribute list and children. -/

inductive Node where
  | text (s : String)
  | elem (tag : String) (attrs : List (String × String)) (children : List Node)

/-- `tag.get(key)`: first value bound to an attribute key, if present. -/
def Node.getAttr : Node → String → Option String
  | .text _, _ => none
  | .elem _ attrs _, k => (attrs.find? (fun p => p.1 = k)).map Prod.snd

mutual

/-- `tag.get_text()`: concatenated text of all descendant text nodes,
in document order. -/
def Node.get_text : Node → String
  | .text s => s
  | .elem _ _ cs => getTextList cs

def getTextList : List Node → String
  | [] => ""
  | n :: ns => n.get_text ++ getTextList ns

end

mutual

/-- `soup.find_all(t)` restricted to the subtree at a node: every element
whose tag is `t`, in document (pre-)order. -/
def findAllFrom (t : String) : Node → List Node
  | .text _ => []
  | .elem tag attrs cs =>
    (if tag = t then [Node.elem tag attrs cs] else []) ++ findAllList t cs

def findAllList (t : String) : List Node → List Node
  | [] => []
  | n :: ns => findAllFrom t n ++ findAllList t ns

end

/-- `soup.find_all(t)` on the whole document. -/
def findAll (t : String) (soup : Node) : List Node :=
  findAllFrom t soup

/-- BeautifulSoup `.string`: the single text descendant reached through a
chain of only children, `None` as soon as a node has zero or several
children. -/
def Node.string : Node → Option String
  | .text s => some s
  | .elem _ _ [c] => c.string
  | .elem _ _ _ => none

/-! ## Page extractor (`extract_page_data`, app.py lines 41-88) -/

/-- One entry of the `links` list: `{'url', 'text', 'is_internal'}`. -/
structure LinkRec where
  url : String
  text : String
  is_internal : Bool
deriving DecidableEq, Repr

/-- The dictionary returned by `extract_page_data`. -/
structure PageRecord where
  url : String
  title : String
  meta_description : String
  headings : List (String × List String)
  num_links : Nat
  num_images : Nat
  main_text : String
  links : List LinkRec
  images : List String
  timestamp : String
deriving DecidableEq, Repr

/-- `extract_page_data(url, soup, base_url)`.  The extra `now` argument is
the wall-clock string `datetime.now().strftime(...)` observed at the call,
made explicit so the function is a pure function of its inputs. -/
def extract_page_data (url : String) (soup : Node) (base_url : String)
    (now : String) : PageRecord :=
  let title : Option String :=
    match (findAll "title" soup).head? with
    | some t => t.string
    | none => some "No title found"
  let meta_tag : Option Node :=
    ((findAll "meta" soup).filter (fun m => m.getAttr "name" = some "description")).head? <|>
    ((findAll "meta" soup).filter (fun m => m.getAttr "property" = some "og:description")).head?
  let meta_desc : String :=
    match meta_tag with
    | some m => (m.getAttr "content").getD ""
    | none => ""
  let headings : List (String × List String) :=
    (List.range 6).map (fun i =>
      ("h" ++ toString (i + 1),
       (findAll ("h" ++ toString (i + 1)) soup).map
         (fun h => clean_text (some h.get_text))))
  let links : List LinkRec :=
    ((findAll "a" soup).filter (fun a => (a.getAttr "href").isSome)).map (fun a =>
      let href := (a.getAttr "href").getD ""
      let full_url := urljoin base_url href
      { url := full_url,
        text := clean_text (some a.get_text),
        is_internal := decide (base_url.data <:+: full_url.data) })
  let images : List String :=
    (findAll "img" soup).map (fun img => (img.getAttr "src").getD "")
  let main_text : String :=
    String.intercalate " "
      ((findAll "p" soup).map (fun p => clean_text (some p.get_text)))
  { url := url,
    title := clean_text title,
    meta_description := clean_text (some meta_desc),
    headings := headings,
    num_links := links.length,
    num_images := images.length,
    main_text := main_text,
    links := links,
    images := images,
    timestamp := now }

/-! ## Crawl engine (`scrape_website`, app.py lines 90-164)

The network is an oracle `fetch : String → Option (Node × String)`:
`none` models a failed fetch (exception / non-2xx status) or a non-HTML
content type — both paths `continue` without touching any state — and
`some (soup, now)` models a successful HTML response, already parsed,
together with the wall-clock string observed while processing the page.
Besides the code's own state (`to_visit`, `visited`, `results`) the loop
carries three traces used only to state theorems: the URLs passed to
`requests.get` (`fetched`), every pair ever pushed on the frontier
(`enqueued`), and the dequeues skipped because `depth > max_depth`
(`deepSkips`); `results` keeps the dequeue depth next to each record. -/

structure CrawlTrace where
  resultsD : List (PageRecord × Nat)
  visited : List String
  fetched : List String
  enqueued : List (String × Nat)
  deepSkips : List (String × Nat)

/-- Lines 126-129 of app.py: the pairs pushed on the frontier after a
successful extraction — every link of the page with `is_internal` true
whose URL is not yet visited, at depth `d + 1`, kept in link order;
nothing when `depth < max_depth` fails. -/
def discovered (page : PageRecord) (visited : List String)
    (d max_depth : Nat) : List (String × Nat) :=
  if d < max_depth then
    (page.links.filter
      (fun l => l.is_internal && !(visited.contains l.url))).map
      (fun l => (l.url, d + 1))
  else []

/-- The `while to_visit and len(results) < max_pages` loop
(app.py lines 107-140). -/
def crawl_loop (fetch : String → Option (Node × String)) (base : String)
    (max_depth max_pages : Nat) (queue : List (String × Nat))
    (visited : List String) (resultsD : List (PageRecord × Nat))
    (fetched : List String) (enqueued deepSkips : List (String × Nat)) :
    CrawlTrace :=
  match queue with
  | [] => ⟨resultsD, visited, fetched, enqueued, deepSkips⟩
  | (u, d) :: rest =>
    if max_pages ≤ resultsD.length then
      ⟨resultsD, visited, fetched, enqueued, deepSkips⟩
    else if u ∈ visited then
      crawl_loop fetch base max_depth max_pages rest visited resultsD
        fetched enqueued deepSkips
    else if max_depth < d then
      crawl_loop fetch base max_depth max_pages rest visited resultsD
        fetched enqueued (deepSkips ++ [(u, d)])
    else
      match fetch u with
      | none =>
        crawl_loop fetch base max_depth max_pages rest visited resultsD
          (fetched ++ [u]) enqueued deepSkips
      | some (soup, now) =>
        let page := extract_page_data u soup base now
        let newLinks := discovered page visited d max_depth
        crawl_loop fetch base max_depth max_pages (rest ++ newLinks)
          (visited ++ [u]) (resultsD ++ [(page, d)]) (fetched ++ [u])
          (enqueued ++ newLinks) deepSkips
termination_by (max_pages - resultsD.length, queue.length)
decreasing_by
  all_goals simp_wf
  · exact Prod.Lex.right _ (by omega)
  · exact Prod.Lex.right _ (by omega)
  · exact Prod.Lex.right _ (by omega)
  · exact Prod.Lex.left _ _ (by omega)

/-- The loop as `scrape_website` enters it: frontier `[(url, 0)]`, empty
visited set and result list, `base_url = get_base_url(url)`. -/
def crawl_trace (fetch : String → Option (Node × String)) (url : String)
    (max_depth max_pages : Nat) : CrawlTrace :=
  crawl_loop fetch (get_base_url url) max_depth max_pages [(url, 0)] [] [] [] [(url, 0)] []

/-- The envelope returned by `scrape_website`; `Option` fields model
dictionary keys present only on one of the two outcomes. -/
structure CrawlResult where
  success : Bool
  data : List PageRecord
  total_pages : Option Nat
  error : Option String
  timestamp : Option String
deriving DecidableEq, Repr

/-- `scrape_website(url, max_depth, max_pages)` (app.py lines 90-164);
`now` is the wall-clock string taken when building the success envelope. -/
def scrape_website (fetch : String → Option (Node × String)) (now : String)
    (url : String) (max_depth max_pages : Nat) : CrawlResult :=
  let t := crawl_trace fetch url max_depth max_pages
  let results := t.resultsD.map Prod.fst
  if results = [] then
    ⟨false, [], none, some "No pages could be crawled", none⟩
  else
    ⟨true, results, some results.length, none, some now⟩

/-! ## Concrete fixtures used for counterexamples -/

/-- A page whose only anchor has the path-relative href `c`. -/
def soupRel : Node :=
  .elem "[document]" []
    [.elem "html" []
      [.elem "body" []
        [.elem "a" [("href", "c")] [.text "link"]]]]

/-- A page linking twice to the same relative target `u`. -/
def soupTwice : Node :=
  .elem "[document]" []
    [.elem "a" [("href", "u")] [.text "one"],
     .elem "a" [("href", "u")] [.text "two"]]

/-- A site where the seed page links twice to `https://s.com/u` and that
target always fails to fetch. -/
def fetchTwice : String → Option (Node × String) :=
  fun x => if x = "https://s.com" then some (soupTwice, "t0") else none

/-! ## Step equations for the crawl loop -/

theorem crawl_loop_nil {fetch : String → Option (Node × String)}
    {base : String} {dM pM : Nat} {v : List String}
    {r : List (PageRecord × Nat)} {f : List String}
    {e s : List (String × Nat)} :
    crawl_loop fetch base dM pM [] v r f e s = ⟨r, v, f, e, s⟩ := by
  rw [crawl_loop.eq_def]

theorem crawl_loop_full {fetch : String → Option (Node × String)}
    {base : String} {dM pM : Nat} {u : String} {d : Nat}
    {q : List (String × Nat)} {v : List String}
    {r : List (PageRecord × Nat)} {f : List String}
    {e s : List (String × Nat)} (h : pM ≤ r.length) :
    crawl_loop fetch base dM pM ((u, d) :: q) v r f e s = ⟨r, v, f, e, s⟩ := by
  rw [crawl_loop.eq_def]; simp [h]

theorem crawl_loop_visited {fetch : String → Option (Node × String)}
    {base : String} {dM pM : Nat} {u : String} {d : Nat}
    {q : List (String × Nat)} {v : List String}
    {r : List (PageRecord × Nat)} {f : List String}
    {e s : List (String × Nat)} (h1 : ¬ pM ≤ r.length) (h2 : u ∈ v) :
    crawl_loop fetch base dM pM ((u, d) :: q) v r f e s =
      crawl_loop fetch base dM pM q v r f e s := by
  rw [crawl_loop.eq_def]; simp [h1, h2]

theorem crawl_loop_deep {fetch : String → Option (Node × String)}
    {base : String} {dM pM : Nat} {u : String} {d : Nat}
    {q : List (String × Nat)} {v : List String}
    {r : List (PageRecord × Nat)} {f : List String}
    {e s : List (String × Nat)} (h1 : ¬ pM ≤ r.length) (h2 : u ∉ v)
    (h3 : dM < d) :
    crawl_loop fetch base dM pM ((u, d) :: q) v r f e s =
      crawl_loop fetch base dM pM q v r f e (s ++ [(u, d)]) := by
  rw [crawl_loop.eq_def]; simp [h1, h2, h3]

theorem crawl_loop_fail {fetch : String → Option (Node × String)}
    {base : String} {dM pM : Nat} {u : String} {d : Nat}
    {q : List (String × Nat)} {v : List String}
    {r : List (PageRecord × Nat)} {f : List String}
    {e s : List (String × Nat)} (h1 : ¬ pM ≤ r.length) (h2 : u ∉ v)
    (h3 : ¬ dM < d) (h4 : fetch u = none) :
    crawl_loop fetch base dM pM ((u, d) :: q) v r f e s =
      crawl_loop fetch base dM pM q v r (f ++ [u]) e s := by
  rw [crawl_loop.eq_def]; simp [h1, h2, h3, h4]

theorem crawl_loop_succ {fetch : String → Option (Node × String)}
    {base : String} {dM pM : Nat} {u : String} {d : Nat}
    {q : List (String × Nat)} {v : List String}
    {r : List (PageRecord × Nat)} {f : List String}
    {e s : List (String × Nat)} {soup : Node} {now : String}
    (h1 : ¬ pM ≤ r.length) (h2 : u ∉ v) (h3 : ¬ dM < d)
    (h4 : fetch u = some (soup, now)) :
    crawl_loop fetch base dM pM ((u, d) :: q) v r f e s =
      crawl_loop fetch base dM pM
        (q ++ discovered (extract_page_data u soup base now) v d dM)
        (v ++ [u]) (r ++ [(extract_page_data u soup base now, d)])
        (f ++ [u]) (e ++ discovered (extract_page_data u soup base now) v d dM)
        s := by
  rw [crawl_loop.eq_def]; simp [h1, h2, h3, h4]

/-! ## Invariants of the crawl loop -/

/-- Every pair produced by `discovered` sits one level below `max_depth`
at depth `d + 1`. -/
theorem discovered_depth {page : PageRecord} {v : List String}
    {d dM : Nat} : ∀ p ∈ discovered page v d dM, d < dM ∧ p.2 = d + 1 := by
  intro p hp
  unfold discovered at hp
  split at hp
  · next hlt =>
    simp only [List.mem_map] at hp
    obtain ⟨l, _, rfl⟩ := hp
    exact ⟨hlt, rfl⟩
  · simp at hp

/-- The loop never lets `results` grow beyond `max_pages`. -/
theorem crawl_loop_length_le (fetch : String → Option (Node × String))
    (base : String) (dM pM : Nat) (q : List (String × Nat))
    (v : List String) (r : List (PageRecord × Nat)) (f : List String)
    (e s : List (String × Nat)) :
    r.length ≤ pM →
      (crawl_loop fetch base dM pM q v r f e s).resultsD.length ≤ pM := by
  induction q, v, r, f, e, s using crawl_loop.induct fetch base dM pM with
  | case1 v r f e s =>
    intro h; rw [crawl_loop_nil]; exact h
  | case2 v r f e s u d rest h1 =>
    intro h; rw [crawl_loop_full h1]; exact h
  | case3 v r f e s u d rest h1 h2 ih =>
    intro h; rw [crawl_loop_visited h1 h2]; exact ih h
  | case4 v r f e s u d rest h1 h2 h3 ih =>
    intro h; rw [crawl_loop_deep h1 h2 h3]; exact ih h
  | case5 v r f e s u d rest h1 h2 h3 h4 ih =>
    intro h; rw [crawl_loop_fail h1 h2 h3 h4]; exact ih h
  | case6 v r f e s u d rest h1 h2 h3 soup now h4 page newLinks ih =>
    intro h
    rw [crawl_loop_succ h1 h2 h3 h4]
    exact ih (by simp; omega)

/-- Every result is appended at its dequeue depth, which passed the
`depth > max_depth` test. -/
theorem crawl_loop_resultsD_depth (fetch : String → Option (Node × String))
    (base : String) (dM pM : Nat) (q : List (String × Nat))
    (v : List String) (r : List (PageRecord × Nat)) (f : List String)
    (e s : List (String × Nat)) :
    (∀ pd ∈ r, pd.2 ≤ dM) →
      ∀ pd ∈ (crawl_loop fetch base dM pM q v r f e s).resultsD, pd.2 ≤ dM := by
  induction q, v, r, f, e, s using crawl_loop.induct fetch base dM pM with
  | case1 v r f e s =>
    intro h; rw [crawl_loop_nil]; exact h
  | case2 v r f e s u d rest h1 =>
    intro h; rw [crawl_loop_full h1]; exact h
  | case3 v r f e s u d rest h1 h2 ih =>
    intro h; rw [crawl_loop_visited h1 h2]; exact ih h
  | case4 v r f e s u d rest h1 h2 h3 ih =>
    intro h; rw [crawl_loop_deep h1 h2 h3]; exact ih h
  | case5 v r f e s u d rest h1 h2 h3 h4 ih =>
    intro h; rw [crawl_loop_fail h1 h2 h3 h4]; exact ih h
  | case6 v r f e s u d rest h1 h2 h3 soup now h4 page newLinks ih =>
    intro h
    rw [crawl_loop_succ h1 h2 h3 h4]
    refine ih ?_
    intro pd hpd
    rcases List.mem_append.mp hpd with hl | hr
    · exact h pd hl
    · simp only [List.mem_singleton] at hr
      subst hr
      exact Nat.not_lt.mp h3

/-- The visited set only grows. -/
theorem crawl_loop_visited_mono (fetch : String → Option (Node × String))
    (base : String) (dM pM : Nat) (q : List (String × Nat))
    (v : List String) (r : List (PageRecord × Nat)) (f : List String)
    (e s : List (String × Nat)) :
    ∀ x ∈ v, x ∈ (crawl_loop fetch base dM pM q v r f e s).visited := by
  induction q, v, r, f, e, s using crawl_loop.induct fetch base dM pM with
  | case1 v r f e s =>
    rw [crawl_loop_nil]; exact fun x hx => hx
  | case2 v r f e s u d rest h1 =>
    rw [crawl_loop_full h1]; exact fun x hx => hx
  | case3 v r f e s u d rest h1 h2 ih =>
    rw [crawl_loop_visited h1 h2]; exact ih
  | case4 v r f e s u d rest h1 h2 h3 ih =>
    rw [crawl_loop_deep h1 h2 h3]; exact ih
  | case5 v r f e s u d rest h1 h2 h3 h4 ih =>
    rw [crawl_loop_fail h1 h2 h3 h4]; exact ih
  | case6 v r f e s u d rest h1 h2 h3 soup now h4 page newLinks ih =>
    rw [crawl_loop_succ h1 h2 h3 h4]
    exact fun x hx => ih x (List.mem_append.mpr (Or.inl hx))

/-- Key uniqueness invariant: among the URLs passed to `requests.get`,
those whose fetch succeeds are pairwise distinct and all recorded in the
visited set (a URL is added to `visited` only on line 131, after a
successful extraction). -/
theorem crawl_loop_fetched_inv (fetch : String → Option (Node × String))
    (base : String) (dM pM : Nat) (q : List (String × Nat))
    (v : List String) (r : List (PageRecord × Nat)) (f : List String)
    (e s : List (String × Nat)) :
    (f.filter (fun x => (fetch x).isSome)).Nodup →
    (∀ x ∈ f.filter (fun x => (fetch x).isSome), x ∈ v) →
      ((crawl_loop fetch base dM pM q v r f e s).fetched.filter
          (fun x => (fetch x).isSome)).Nodup ∧
      ∀ x ∈ (crawl_loop fetch base dM pM q v r f e s).fetched.filter
          (fun x => (fetch x).isSome),
        x ∈ (crawl_loop fetch base dM pM q v r f e s).visited := by
  induction q, v, r, f, e, s using crawl_loop.induct fetch base dM pM with
  | case1 v r f e s =>
    intro hn hv; rw [crawl_loop_nil]; exact ⟨hn, hv⟩
  | case2 v r f e s u d rest h1 =>
    intro hn hv; rw [crawl_loop_full h1]; exact ⟨hn, hv⟩
  | case3 v r f e s u d rest h1 h2 ih =>
    intro hn hv; rw [crawl_loop_visited h1 h2]; exact ih hn hv
  | case4 v r f e s u d rest h1 h2 h3 ih =>
    intro hn hv; rw [crawl_loop_deep h1 h2 h3]; exact ih hn hv
  | case5 v r f e s u d rest h1 h2 h3 h4 ih =>
    intro hn hv
    rw [crawl_loop_fail h1 h2 h3 h4]
    have hfilter : (f ++ [u]).filter (fun x => (fetch x).isSome) =
        f.filter (fun x => (fetch x).isSome) := by
      simp [List.filter_append, h4]
    refine ih ?_ ?_
    · rw [hfilter]; exact hn
    · rw [hfilter]; exact hv
  | case6 v r f e s u d rest h1 h2 h3 soup now h4 page newLinks ih =>
    intro hn hv
    rw [crawl_loop_succ h1 h2 h3 h4]
    have hfilter : (f ++ [u]).filter (fun x => (fetch x).isSome) =
        f.filter (fun x => (fetch x).isSome) ++ [u] := by
      simp [List.filter_append, h4]
    refine ih ?_ ?_
    · rw [hfilter]
      refine List.Nodup.append hn (List.nodup_singleton u) ?_
      intro x hx hx'
      simp only [List.mem_singleton] at hx'
      subst hx'
      exact h2 (hv x hx)
    · rw [hfilter]
      intro x hx
      rcases List.mem_append.mp hx with hl | hr
      · exact List.mem_append.mpr (Or.inl (hv x hl))
      · simp only [List.mem_singleton] at hr
        subst hr
        exact List.mem_append.mpr (Or.inr (by simp))

/-- Depth bound on the frontier: when every pair in the queue and in the
enqueue trace is within `max_depth` and no deep skip has happened, the
same holds at termination — children enter at `d + 1` only when
`d < max_depth`, so the `depth > max_depth` branch is unreachable. -/
theorem crawl_loop_enqueued_inv (fetch : String → Option (Node × String))
    (base : String) (dM pM : Nat) (q : List (String × Nat))
    (v : List String) (r : List (PageRecord × Nat)) (f : List String)
    (e s : List (String × Nat)) :
    (∀ p ∈ q, p.2 ≤ dM) → (∀ p ∈ e, p.2 ≤ dM) → s = [] →
      (∀ p ∈ (crawl_loop fetch base dM pM q v r f e s).enqueued, p.2 ≤ dM) ∧
      (crawl_loop fetch base dM pM q v r f e s).deepSkips = [] := by
  induction q, v, r, f, e, s using crawl_loop.induct fetch base dM pM with
  | case1 v r f e s =>
    intro _ he hs; rw [crawl_loop_nil]; exact ⟨he, hs⟩
  | case2 v r f e s u d rest h1 =>
    intro _ he hs; rw [crawl_loop_full h1]; exact ⟨he, hs⟩
  | case3 v r f e s u d rest h1 h2 ih =>
    intro hq he hs
    rw [crawl_loop_visited h1 h2]
    exact ih (fun p hp => hq p (List.mem_cons_of_mem _ hp)) he hs
  | case4 v r f e s u d rest h1 h2 h3 ih =>
    intro hq _ _
    exact absurd (hq (u, d) (List.mem_cons_self _ _)) (by simpa using h3)
  | case5 v r f e s u d rest h1 h2 h3 h4 ih =>
    intro hq he hs
    rw [crawl_loop_fail h1 h2 h3 h4]
    exact ih (fun p hp => hq p (List.mem_cons_of_mem _ hp)) he hs
  | case6 v r f e s u d rest h1 h2 h3 soup now h4 page newLinks ih =>
    intro hq he hs
    rw [crawl_loop_succ h1 h2 h3 h4]
    have hnew : ∀ p ∈ discovered (extract_page_data u soup base now) v d dM,
        p.2 ≤ dM := by
      intro p hp
      obtain ⟨hd, hp2⟩ := discovered_depth p hp
      omega
    refine ih ?_ ?_ hs
    · intro p hp
      rcases List.mem_append.mp hp with hl | hr
      · exact hq p (List.mem_cons_of_mem _ hl)
      · exact hnew p hr
    · intro p hp
      rcases List.mem_append.mp hp with hl | hr
      · exact he p hl
      · exact hnew p hr

/-- Breadth-first invariant.  With a frontier whose depths are
nondecreasing and spread over a window of width one, and results whose
depths are nondecreasing and bounded by every frontier depth, the final
result depths are nondecreasing. -/
theorem crawl_loop_bfs_inv (fetch : String → Option (Node × String))
    (base : String) (dM pM : Nat) (q : List (String × Nat))
    (v : List String) (r : List (PageRecord × Nat)) (f : List String)
    (e s : List (String × Nat)) :
    List.Pairwise (fun a b => a.2 ≤ b.2) q →
    (∀ a ∈ q, ∀ b ∈ q, a.2 ≤ b.2 + 1) →
    (∀ pd ∈ r, ∀ p ∈ q, pd.2 ≤ p.2) →
    List.Pairwise (fun (a b : PageRecord × Nat) => a.2 ≤ b.2) r →
      List.Pairwise (fun (a b : PageRecord × Nat) => a.2 ≤ b.2)
        (crawl_loop fetch base dM pM q v r f e s).resultsD := by
  induction q, v, r, f, e, s using crawl_loop.induct fetch base dM pM with
  | case1 v r f e s =>
    intro _ _ _ h4; rw [crawl_loop_nil]; exact h4
  | case2 v r f e s u d rest h1 =>
    intro _ _ _ h4; rw [crawl_loop_full h1]; exact h4
  | case3 v r f e s u d rest hp hv ih =>
    intro h1 h2 h3 h4
    rw [crawl_loop_visited hp hv]
    exact ih (List.pairwise_cons.mp h1).2
      (fun a ha b hb => h2 a (List.mem_cons_of_mem _ ha) b (List.mem_cons_of_mem _ hb))
      (fun pd hpd p hp' => h3 pd hpd p (List.mem_cons_of_mem _ hp')) h4
  | case4 v r f e s u d rest hp hv hd ih =>
    intro h1 h2 h3 h4
    rw [crawl_loop_deep hp hv hd]
    exact ih (List.pairwise_cons.mp h1).2
      (fun a ha b hb => h2 a (List.mem_cons_of_mem _ ha) b (List.mem_cons_of_mem _ hb))
      (fun pd hpd p hp' => h3 pd hpd p (List.mem_cons_of_mem _ hp')) h4
  | case5 v r f e s u d rest hp hv hd hf ih =>
    intro h1 h2 h3 h4
    rw [crawl_loop_fail hp hv hd hf]
    exact ih (List.pairwise_cons.mp h1).2
      (fun a ha b hb => h2 a (List.mem_cons_of_mem _ ha) b (List.mem_cons_of_mem _ hb))
      (fun pd hpd p hp' => h3 pd hpd p (List.mem_cons_of_mem _ hp')) h4
  | case6 v r f e s u d rest hp hv hd soup now hf page newLinks ih =>
    intro h1 h2 h3 h4
    rw [crawl_loop_succ hp hv hd hf]
    have hhead : ∀ b ∈ rest, d ≤ b.2 := fun b hb => (List.pairwise_cons.mp h1).1 b hb
    have hnewd : ∀ p ∈ discovered (extract_page_data u soup base now) v d dM,
        p.2 = d + 1 := fun p hp => (discovered_depth p hp).2
    refine ih ?_ ?_ ?_ ?_
    · refine List.pairwise_append.mpr ⟨(List.pairwise_cons.mp h1).2, ?_, ?_⟩
      · exact List.pairwise_of_forall_mem_list
          (fun a ha b hb => by rw [hnewd a ha, hnewd b hb])
      · intro a ha b hb
        have := h2 a (List.mem_cons_of_mem _ ha) (u, d) (List.mem_cons_self _ _)
        rw [hnewd b hb]
        omega
    · intro a ha b hb
      rcases List.mem_append.mp ha with ha' | ha' <;>
        rcases List.mem_append.mp hb with hb' | hb'
      · exact h2 a (List.mem_cons_of_mem _ ha') b (List.mem_cons_of_mem _ hb')
      · have := h2 a (List.mem_cons_of_mem _ ha') (u, d) (List.mem_cons_self _ _)
        rw [hnewd b hb']
        omega
      · have := hhead b hb'
        rw [hnewd a ha']
        omega
      · rw [hnewd a ha', hnewd b hb']
        omega
    · intro pd hpd p hp'
      rcases List.mem_append.mp hpd with hl | hr
      · rcases List.mem_append.mp hp' with hql | hqr
        · exact h3 pd hl p (List.mem_cons_of_mem _ hql)
        · have := h3 pd hl (u, d) (List.mem_cons_self _ _)
          rw [hnewd p hqr]
          omega
      · simp only [List.mem_singleton] at hr
        subst hr
        rcases List.mem_append.mp hp' with hql | hqr
        · exact hhead p hql
        · rw [hnewd p hqr]
          omega
    · refine List.pairwise_append.mpr ⟨h4, List.pairwise_singleton _ _, ?_⟩
      intro a ha b hb
      simp only [List.mem_singleton] at hb
      subst hb
      exact h3 a ha (u, d) (List.mem_cons_self _ _)

/-- A crawl whose seed fetch fails retrieves nothing: the frontier holds
only the seed, the failure path records no result, and the loop ends. -/
theorem crawl_trace_seed_fail (fetch : String → Option (Node × String))
    (url : String) (dM pM : Nat) (h : fetch url = none) :
    (crawl_trace fetch url dM pM).resultsD = [] := by
  unfold crawl_trace
  by_cases hpM : pM ≤ ([] : List (PageRecord × Nat)).length
  · rw [crawl_loop_full hpM]
  · rw [crawl_loop_fail hpM (by simp) (by omega) h, crawl_loop_nil]

/-! ## Claim theorems -/

/-- C1, counterexample: the claim says hrefs are joined against the page's
own URL.  On page `https://ex.com/a/b` (base origin `https://ex.com`) the
code resolves `href="c"` to `https://ex.com/c`, while joining against the
page URL would give `https://ex.com/a/c`. -/
theorem C1_link_resolution_counterexample :
    (extract_page_data "https://ex.com/a/b" soupRel
        (get_base_url "https://ex.com/a/b") "ts").links.map (fun l => l.url) =
      ["https://ex.com/c"] ∧
    urljoin "https://ex.com/a/b" "c" = "https://ex.com/a/c" ∧
    ("https://ex.com/c" : String) ≠ "https://ex.com/a/c" :=
  ⟨by decide, by decide, by decide⟩

/-- C1 (amended): every link URL recorded in the PageRecord is the href
joined against the crawl's base-origin string — the `base_url` argument —
not the page's own URL; the `links` field does not depend on the page URL
at all.  For an origin-absolute href such as `/x` the two joins coincide:
`href="/x"` under base `https://ex.com` resolves to `https://ex.com/x`. -/
theorem C1_link_resolution_amended (u u' : String) (soup : Node)
    (b t t' : String) :
    (extract_page_data u soup b t).links = (extract_page_data u' soup b t').links ∧
    (extract_page_data u soup b t).links =
      ((findAll "a" soup).filter (fun a => (a.getAttr "href").isSome)).map
        (fun a =>
          { url := urljoin b ((a.getAttr "href").getD ""),
            text := clean_text (some a.get_text),
            is_internal :=
              decide (b.data <:+: (urljoin b ((a.getAttr "href").getD "")).data) }) ∧
    urljoin "https://ex.com" "/x" = "https://ex.com/x" :=
  ⟨rfl, rfl, by decide⟩

/-- C3, counterexample: two extractions from identical url, parsed HTML
and base origin made at different wall-clock instants differ — in the
`timestamp` field — so the PageRecords are not byte-identical. -/
theorem C3_extract_deterministic_counterexample :
    extract_page_data "https://e.com" (.elem "[document]" [] [])
        "https://e.com" "2024-01-01 00:00:00" ≠
      extract_page_data "https://e.com" (.elem "[document]" [] [])
        "https://e.com" "2024-01-01 00:00:01" := by
  decide

/-- C3 (amended): extraction is deterministic in every field except
`timestamp`: for identical url, parsed HTML and base origin, all other
fields of the two PageRecords are identical whatever the two clock
readings are. -/
theorem C3_extract_deterministic_amended (u : String) (soup : Node)
    (b t t' : String) :
    (extract_page_data u soup b t).url = (extract_page_data u soup b t').url ∧
    (extract_page_data u soup b t).title = (extract_page_data u soup b t').title ∧
    (extract_page_data u soup b t).meta_description =
      (extract_page_data u soup b t').meta_description ∧
    (extract_page_data u soup b t).headings =
      (extract_page_data u soup b t').headings ∧
    (extract_page_data u soup b t).num_links =
      (extract_page_data u soup b t').num_links ∧
    (extract_page_data u soup b t).num_images =
      (extract_page_data u soup b t').num_images ∧
    (extract_page_data u soup b t).main_text =
      (extract_page_data u soup b t').main_text ∧
    (extract_page_data u soup b t).links = (extract_page_data u soup b t').links ∧
    (extract_page_data u soup b t).images = (extract_page_data u soup b t').images :=
  ⟨rfl, rfl, rfl, rfl, rfl, rfl, rfl, rfl, rfl⟩

/-- C7: a link is marked internal exactly when the crawl's base-origin
string occurs as a contiguous substring of the resolved URL. -/
theorem C7_is_internal_substring (u : String) (soup : Node) (b t : String) :
    ∀ l ∈ (extract_page_data u soup b t).links,
      (l.is_internal = true ↔ b.data <:+: l.url.data) := by
  intro l hl
  simp only [extract_page_data, List.mem_map] at hl
  obtain ⟨a, _, rfl⟩ := hl
  simp

/-- C7 witness: the single link of the fixture page. -/
theorem C7_is_internal_substring_witness :
    ({ url := "https://ex.com/c", text := "link", is_internal := true } : LinkRec) ∈
      (extract_page_data "https://ex.com/a/b" soupRel "https://ex.com" "ts").links ∧
    ((({ url := "https://ex.com/c", text := "link",
          is_internal := true } : LinkRec).is_internal = true) ↔
      ("https://ex.com" : String).data <:+: ("https://ex.com/c" : String).data) :=
  ⟨by decide,
   C7_is_internal_substring "https://ex.com/a/b" soupRel "https://ex.com" "ts"
     { url := "https://ex.com/c", text := "link", is_internal := true } (by decide)⟩

/-- C9: in every extracted PageRecord, `num_links` is the length of
`links` and `num_images` the length of `images`. -/
theorem C9_link_image_counts (u : String) (soup : Node) (b t : String) :
    (extract_page_data u soup b t).num_links =
      (extract_page_data u soup b t).links.length ∧
    (extract_page_data u soup b t).num_images =
      (extract_page_data u soup b t).images.length :=
  ⟨rfl, rfl⟩

/-- C2, counterexample: `visited` is updated only after a successful
extraction, so a URL whose fetch fails is not marked visited.  The seed
`https://s.com` links twice to `https://s.com/u`, whose fetch fails: both
frontier copies survive the `not in visited` test and the URL is fetched
twice in one crawl. -/
theorem C2_no_refetch_counterexample :
    (crawl_trace fetchTwice "https://s.com" 1 10).fetched =
      ["https://s.com", "https://s.com/u", "https://s.com/u"] ∧
    ¬ (crawl_trace fetchTwice "https://s.com" 1 10).fetched.Nodup := by
  have heval : (crawl_trace fetchTwice "https://s.com" 1 10).fetched =
      ["https://s.com", "https://s.com/u", "https://s.com/u"] := by
    unfold crawl_trace
    rw [show get_base_url "https://s.com" = "https://s.com" from by decide]
    rw [crawl_loop_succ (by norm_num) (by simp) (by omega) rfl]
    rw [show discovered
        (extract_page_data "https://s.com" soupTwice "https://s.com" "t0") [] 0 1 =
        [("https://s.com/u", 1), ("https://s.com/u", 1)] from by decide]
    simp only [List.nil_append]
    rw [crawl_loop_fail (by norm_num) (by decide) (by omega) rfl]
    rw [crawl_loop_fail (by norm_num) (by decide) (by omega) rfl]
    rw [crawl_loop_nil]
    rfl
  refine ⟨heval, ?_⟩
  rw [heval]
  decide

/-- C2 (amended): a URL is in the visited set once *successfully* fetched
and extracted, and is then never fetched again: the successfully fetched
URLs of one crawl are pairwise distinct and all end up in the visited
set.  (A URL whose fetch fails is not marked visited and may be fetched
again if it was enqueued more than once.) -/
theorem C2_visited_amended (fetch : String → Option (Node × String))
    (url : String) (dM pM : Nat) :
    ((crawl_trace fetch url dM pM).fetched.filter
        (fun x => (fetch x).isSome)).Nodup ∧
    ∀ x ∈ (crawl_trace fetch url dM pM).fetched.filter
        (fun x => (fetch x).isSome),
      x ∈ (crawl_trace fetch url dM pM).visited := by
  unfold crawl_trace
  exact crawl_loop_fetched_inv fetch (get_base_url url) dM pM _ _ _ _ _ _
    (by simp) (by simp)

/-- C4: a crawl returns at most `max_pages` records, and every record was
dequeued at a discovery depth of at most `max_depth`. -/
theorem C4_page_and_depth_bounds (fetch : String → Option (Node × String))
    (now url : String) (dM pM : Nat) (_h : 1 ≤ pM) :
    (scrape_website fetch now url dM pM).data.length ≤ pM ∧
    ∀ pd ∈ (crawl_trace fetch url dM pM).resultsD, pd.2 ≤ dM := by
  constructor
  · have hlen : (crawl_trace fetch url dM pM).resultsD.length ≤ pM :=
      crawl_loop_length_le fetch (get_base_url url) dM pM
        [(url, 0)] [] [] [] [(url, 0)] [] (by simp)
    by_cases hres : (crawl_trace fetch url dM pM).resultsD = []
    · simp [scrape_website, hres]
    · simpa [scrape_website, hres] using hlen
  · exact crawl_loop_resultsD_depth fetch (get_base_url url) dM pM
      [(url, 0)] [] [] [] [(url, 0)] [] (by simp)

/-- C4 witness at a concrete crawl. -/
theorem C4_page_and_depth_bounds_witness :
    1 ≤ 5 ∧
    ((scrape_website (fun _ => none) "t" "https://w.com" 2 5).data.length ≤ 5 ∧
     ∀ pd ∈ (crawl_trace (fun _ => none) "https://w.com" 2 5).resultsD,
       pd.2 ≤ 2) :=
  ⟨by omega, C4_page_and_depth_bounds (fun _ => none) "t" "https://w.com" 2 5 (by omega)⟩

/-- C5: results are appended in breadth-first order — the dequeue depths
along `results` are nondecreasing, so a record of strictly smaller depth
always precedes one of larger depth. -/
theorem C5_breadth_first_order (fetch : String → Option (Node × String))
    (url : String) (dM pM : Nat) :
    List.Pairwise (fun (a b : PageRecord × Nat) => a.2 ≤ b.2)
      (crawl_trace fetch url dM pM).resultsD ∧
    ∀ (i j : Fin (crawl_trace fetch url dM pM).resultsD.length), i < j →
      ((crawl_trace fetch url dM pM).resultsD.get i).2 ≤
        ((crawl_trace fetch url dM pM).resultsD.get j).2 := by
  have hp : List.Pairwise (fun (a b : PageRecord × Nat) => a.2 ≤ b.2)
      (crawl_trace fetch url dM pM).resultsD := by
    unfold crawl_trace
    refine crawl_loop_bfs_inv fetch (get_base_url url) dM pM
      [(url, 0)] [] [] [] [(url, 0)] [] ?_ ?_ ?_ ?_
    · simp
    · intro a ha b hb
      simp only [List.mem_singleton] at ha hb
      subst ha; subst hb; omega
    · simp
    · simp
  exact ⟨hp, fun i j hij => List.pairwise_iff_get.mp hp i j hij⟩

/-- C6: after the loop terminates, an empty result list yields the exact
failure envelope `{success: false, error: "No pages could be crawled",
data: []}`, and a non-empty one the success envelope with
`total_pages = len(data)`; in particular a seed whose fetch fails (the
only URL ever attempted) produces the failure envelope. -/
theorem C6_result_envelope (fetch : String → Option (Node × String))
    (now url : String) (dM pM : Nat) :
    ((scrape_website fetch now url dM pM).data = [] →
      scrape_website fetch now url dM pM =
        ⟨false, [], none, some "No pages could be crawled", none⟩) ∧
    ((scrape_website fetch now url dM pM).data ≠ [] →
      scrape_website fetch now url dM pM =
        ⟨true, (scrape_website fetch now url dM pM).data,
          some (scrape_website fetch now url dM pM).data.length, none,
          some now⟩) ∧
    (fetch url = none →
      scrape_website fetch now url dM pM =
        ⟨false, [], none, some "No pages could be crawled", none⟩) := by
  by_cases hres : (crawl_trace fetch url dM pM).resultsD = []
  · refine ⟨fun _ => ?_, fun hne => ?_, fun _ => ?_⟩
    · simp [scrape_website, hres]
    · exact absurd (by simp [scrape_website, hres]) hne
    · simp [scrape_website, hres]
  · refine ⟨fun hd => ?_, fun _ => ?_, fun hf => ?_⟩
    · exact absurd hd (by simp [scrape_website, hres])
    · simp [scrape_website, hres]
    · exact absurd (crawl_trace_seed_fail fetch url dM pM hf) hres

/-- C6 witness: the always-failing network. -/
theorem C6_result_envelope_witness :
    (fun (_ : String) => (none : Option (Node × String))) "https://w.com" = none ∧
    scrape_website (fun _ => none) "t" "https://w.com" 1 10 =
      ⟨false, [], none, some "No pages could be crawled", none⟩ :=
  ⟨rfl, (C6_result_envelope (fun _ => none) "t" "https://w.com" 1 10).2.2 rfl⟩

/-- C8: with `max_depth = 0` no link is ever enqueued, so at most one
page — the seed — is returned, and any returned record carries the seed
URL. -/
theorem C8_depth_zero_single_page (fetch : String → Option (Node × String))
    (now url : String) (pM : Nat) :
    (scrape_website fetch now url 0 pM).data.length ≤ 1 ∧
    ∀ p ∈ (scrape_website fetch now url 0 pM).data, p.url = url := by
  have key : (crawl_trace fetch url 0 pM).resultsD = [] ∨
      ∃ soup now', fetch url = some (soup, now') ∧
        (crawl_trace fetch url 0 pM).resultsD =
          [(extract_page_data url soup (get_base_url url) now', 0)] := by
    unfold crawl_trace
    by_cases hpM : pM ≤ ([] : List (PageRecord × Nat)).length
    · rw [crawl_loop_full hpM]; exact Or.inl rfl
    · cases hf : fetch url with
      | none =>
        rw [crawl_loop_fail hpM (by simp) (by omega) hf, crawl_loop_nil]
        exact Or.inl rfl
      | some sn =>
        obtain ⟨soup, now'⟩ := sn
        rw [crawl_loop_succ hpM (by simp) (by omega) hf]
        rw [show discovered
            (extract_page_data url soup (get_base_url url) now') [] 0 0 = []
          from by simp [discovered]]
        simp only [List.nil_append, List.append_nil]
        rw [crawl_loop_nil]
        exact Or.inr ⟨soup, now', rfl, rfl⟩
  rcases key with hres | ⟨soup, now', _, hres⟩
  · constructor
    · simp [scrape_website, hres]
    · intro p hp
      simp [scrape_website, hres] at hp
  · constructor
    · simp [scrape_website, hres]
    · intro p hp
      simp [scrape_website, hres] at hp
      subst hp
      rfl

/-- C10: every pair ever enqueued on the frontier — the seed at depth 0
and children at `d + 1` only when `d < max_depth` — has depth at most
`max_depth`, and consequently the `depth > max_depth` skip branch never
fires. -/
theorem C10_frontier_depth_bound (fetch : String → Option (Node × String))
    (url : String) (dM pM : Nat) :
    (∀ p ∈ (crawl_trace fetch url dM pM).enqueued, p.2 ≤ dM) ∧
    (crawl_trace fetch url dM pM).deepSkips = [] := by
  unfold crawl_trace
  exact crawl_loop_enqueued_inv fetch (get_base_url url) dM pM _ _ _ _ _ _
    (by simp) (by simp) rfl

end Scraper

